import Mathlib

/-!
# Verification of the JAM throughput simulator

Shallow embedding of the two simulator variants of this repository:

* `SimA` embeds `scripts/simulation.py` (`run_simulation`): scenario draws for
  workloads and witnesses, a multinomial distribution of both across the core
  pool, per-core rate-vs-bandwidth contention, bandwidth-capped processed
  bytes, effective and finality-delayed TPS, per-slot cost, and a CSV export
  performed inside the run itself (modelled as an explicit effect log).
* `SimB` embeds `tools/jam_datacenter_simulator.py` (`run_simulation`):
  workload draw per scenario, conversion of work-packages to fixed-size
  chunks, multinomial chunk distribution, per-core needed-vs-capacity check,
  capped processed bytes, effective/finalized TPS and cost.

Randomness is modelled by an abstract stream of raw natural-number draws.
`random.randint(a, b)` maps a raw draw into `[a, b]` by `a + d % (b - a + 1)`;
the Bernoulli test `random.random() < 0.8` consumes one raw draw `d` and
yields `d % 10 < 8`; `numpy.random.multinomial(n, [1/C]*C)` places `n`
independent draws into `C` bins, each draw picking bin `d % C`.  Re-seeding
(`random.seed(random.randint(0, 2**32 - 1))` in epoch mode) consumes the seed
draw; the subsequent stream abstracts the re-seeded generator.  Python float
arithmetic on TPS/cost values is embedded as exact rational arithmetic.
-/

/-- An abstract stream of raw random draws: position `i` holds the `i`-th raw
draw of the process-wide random source. -/
abbrev RandStream := Nat → Nat

/-- A stream of zero draws, used as a concrete instantiation point. -/
def zStream : RandStream := fun _ => 0

/-- Take one raw draw from the stream. -/
def drawNat (s : RandStream) : Nat × RandStream :=
  (s 0, fun i => s (i + 1))

/-- Python `random.randint(a, b)`: a uniform integer in `[a, b]` (inclusive),
obtained from one raw draw. -/
def randint (a b : Nat) (s : RandStream) : Nat × RandStream :=
  let (d, s1) := drawNat s
  (a + d % (b - a + 1), s1)

/-- Increment the counter at index `i` of a list of bin counters. -/
def incAt : List Nat → Nat → List Nat
  | [], _ => []
  | x :: xs, 0 => (x + 1) :: xs
  | x :: xs, k + 1 => x :: incAt xs k

/-- Auxiliary loop of the multinomial draw: place `k` further balls, one raw
draw each, into the current bin counters `acc` (uniform bin `d % C`). -/
def multinomialGo (C : Nat) : Nat → List Nat → RandStream → List Nat × RandStream
  | 0, acc, s => (acc, s)
  | k + 1, acc, s =>
    let (d, s1) := drawNat s
    multinomialGo C k (incAt acc (d % C)) s1

/-- `numpy.random.multinomial(n, [1/C]*C)`: `n` independent placements of one
ball each into `C` equiprobable bins. -/
def multinomial (n C : Nat) (s : RandStream) : List Nat × RandStream :=
  multinomialGo C n (List.replicate C 0) s

/-- Per-slot record produced by one pass of either variant's slot body:
the drawn workload count, the contention flag, the bandwidth-capped processed
bytes, the effective TPS, and the slot cost. -/
structure SlotOut where
  workload_count : Nat
  contended : Bool
  processed_bytes : Nat
  effective_tps : ℚ
  cost : ℚ

/-- The four per-slot series accumulated by the slot loop of either variant
(`contention_history`/`contention_flags`, `costs`/`cost_series`,
`tps_effective`/`effective_tps_series`, `tps_finalized`/`finalized_tps_series`). -/
structure RunAcc where
  contention_history : List Bool
  costs : List ℚ
  tps_effective : List ℚ
  tps_finalized : List ℚ

/-- The empty accumulator the loop starts from. -/
def RunAcc.init : RunAcc := ⟨[], [], [], []⟩

/-- Append one slot's outputs to the series.  The finalized entry mirrors the
source: once the effective value of the current slot has been appended, slot
`slot` records `tps_effective[slot - finality_delay_slots]` when
`slot >= finality_delay_slots` and the zero sentinel otherwise. -/
def pushSlot (delay slot : Nat) (o : SlotOut) (acc : RunAcc) : RunAcc :=
  let eff := acc.tps_effective ++ [o.effective_tps]
  { contention_history := acc.contention_history ++ [o.contended]
    costs := acc.costs ++ [o.cost]
    tps_effective := eff
    tps_finalized := acc.tps_finalized ++
      [if delay ≤ slot then eff.getD (slot - delay) 0 else 0] }

/-- The slot loop shared by both variants, over a possibly failing slot body:
run `k` further slots starting at index `slot`, threading the random stream;
a failing slot body aborts the whole run (no partial result escapes). -/
def slotLoop (step : Nat → RandStream → Option (SlotOut × RandStream))
    (delay : Nat) : Nat → Nat → RandStream → RunAcc → Option (RunAcc × RandStream)
  | 0, _, s, acc => some (acc, s)
  | k + 1, slot, s, acc =>
    match step slot s with
    | none => none
    | some (o, s1) => slotLoop step delay k (slot + 1) s1 (pushSlot delay slot o acc)

/-- The slot loop for a total slot body (variant B's body cannot fail). -/
def slotLoopT (step : Nat → RandStream → SlotOut × RandStream)
    (delay : Nat) : Nat → Nat → RandStream → RunAcc → RunAcc × RandStream
  | 0, _, s, acc => (acc, s)
  | k + 1, slot, s, acc =>
    let (o, s1) := step slot s
    slotLoopT step delay k (slot + 1) s1 (pushSlot delay slot o acc)

/-- `numpy.mean` of a series, as exact rational arithmetic. -/
def mean (l : List ℚ) : ℚ := l.sum / l.length

namespace SimA

/-- The module-level parameters of `scripts/simulation.py`. -/
structure Config where
  C : Nat
  P : Nat
  T : Nat
  core_bandwidth : Nat
  work_package_size : Nat
  witness_size : Nat
  finality_delay_slots : Nat
  GAMMA_A : ℚ
  GAMMA_Z : ℚ

/-- The constant values assigned at the top of `scripts/simulation.py`. -/
def defaultCfg : Config :=
  { C := 341
    P := 6
    T := 128
    core_bandwidth := 2 * 1024 * 1024
    work_package_size := 13794305
    witness_size := 640
    finality_delay_slots := 2
    GAMMA_A := 1 / 1000
    GAMMA_Z := 1 / 2000 }

/-- The per-slot scenario dispatch of `run_simulation`: draws
`(workloads, witnesses)` for the recognized tags and fails (`ValueError
"Unknown scenario."`) otherwise.  The `mixed` branch first consumes the
`random.random() < 0.8` coin. -/
def scenarioDraw (scenario : String) (s : RandStream) :
    Option (Nat × Nat × RandStream) :=
  if scenario = "stateless" then
    let (w, s1) := randint 1 3 s
    let (wit, s2) := randint 100 500 s1
    some (w, wit, s2)
  else if scenario = "state-heavy" then
    let (w, s1) := randint 3 6 s
    let (wit, s2) := randint 1000 3000 s1
    some (w, wit, s2)
  else if scenario = "mixed" then
    let (c, s0) := drawNat s
    if c % 10 < 8 then
      let (w, s1) := randint 1 3 s0
      let (wit, s2) := randint 100 500 s1
      some (w, wit, s2)
    else
      let (w, s1) := randint 3 6 s0
      let (wit, s2) := randint 1000 3000 s1
      some (w, wit, s2)
  else none

/-- Bytes demanded by core `i` this slot:
`workloads_per_core[i] * work_package_size + witnesses_per_core[i] * witness_size`. -/
def coreDemand (cfg : Config) (wl witl : List Nat) (i : Nat) : Nat :=
  wl.getD i 0 * cfg.work_package_size + witl.getD i 0 * cfg.witness_size

/-- The per-core overload test of the source: the demanded data rate
`(wp_data + wit_data) / P` exceeds `core_bandwidth`. -/
def coreOverRate (cfg : Config) (wl witl : List Nat) (i : Nat) : Bool :=
  decide ((cfg.core_bandwidth : ℚ) < (coreDemand cfg wl witl i : ℚ) / (cfg.P : ℚ))

/-- `slot_contention_count`: how many cores are over their rate this slot. -/
def contentionCount (cfg : Config) (wl witl : List Nat) : Nat :=
  ((List.range cfg.C).filter (coreOverRate cfg wl witl)).length

/-- `total_processed_data_in_slot`: per core,
`min(core_bandwidth * P, wp_data + wit_data)`, summed over the pool. -/
def processedBytes (cfg : Config) (wl witl : List Nat) : Nat :=
  ((List.range cfg.C).map fun i =>
    min (cfg.core_bandwidth * cfg.P) (coreDemand cfg wl witl i)).sum

/-- `effective_tps = ((processed / work_package_size) * T) / P`. -/
def effectiveTps (cfg : Config) (processed : Nat) : ℚ :=
  (processed : ℚ) / (cfg.work_package_size : ℚ) * (cfg.T : ℚ) / (cfg.P : ℚ)

/-- `cost = GAMMA_A * workloads + GAMMA_Z * tickets` with
`tickets = workloads * T`. -/
def slotCost (cfg : Config) (workloads : Nat) : ℚ :=
  cfg.GAMMA_A * (workloads : ℚ) + cfg.GAMMA_Z * ((workloads * cfg.T : Nat) : ℚ)

/-- One slot of `run_simulation`: optional epoch re-seed (which consumes the
seed draw), scenario draw, multinomial distribution of workloads and
witnesses over the core pool, contention count, capped processed bytes,
effective TPS and cost. -/
def step (cfg : Config) (scenario : String) (epoch_mode : Bool) (slot : Nat)
    (s : RandStream) : Option (SlotOut × RandStream) :=
  let s := if epoch_mode && slot % 100 == 0 then (randint 0 (2 ^ 32 - 1) s).2 else s
  match scenarioDraw scenario s with
  | none => none
  | some (w, wit, s1) =>
    let (wl, s2) := multinomial w cfg.C s1
    let (witl, s3) := multinomial wit cfg.C s2
    let processed := processedBytes cfg wl witl
    some ({ workload_count := w
            contended := decide (0 < contentionCount cfg wl witl)
            processed_bytes := processed
            effective_tps := effectiveTps cfg processed
            cost := slotCost cfg w }, s3)

/-- The result dictionary of `run_simulation`, together with the files the
function writes on its way out (`run_simulation` opens
`simulation_results.csv` and writes the per-slot rows before returning). -/
structure Result where
  scenario : String
  tps_theoretical : ℚ
  avg_tps_effective : ℚ
  avg_tps_finalized : ℚ
  avg_cost : ℚ
  contention_rate : ℚ
  tps_effective : List ℚ
  tps_finalized : List ℚ
  contention_history : List Bool
  files_written : List String

/-- `run_simulation(num_slots, scenario, epoch_mode)` of
`scripts/simulation.py`.  `epoch_mode` overrides `num_slots` with 600.
An unknown scenario raises at slot 0, so the whole run fails with no
observable per-slot result (`none`). -/
def run (cfg : Config) (num_slots : Nat) (scenario : String) (epoch_mode : Bool)
    (s : RandStream) : Option Result :=
  let n := if epoch_mode then 600 else num_slots
  match slotLoop (step cfg scenario epoch_mode) cfg.finality_delay_slots n 0 s
      RunAcc.init with
  | none => none
  | some (acc, _) =>
    some { scenario := scenario
           tps_theoretical := (cfg.C : ℚ) * (cfg.T : ℚ) / (cfg.P : ℚ)
           avg_tps_effective := mean acc.tps_effective
           avg_tps_finalized := mean acc.tps_finalized
           avg_cost := mean acc.costs
           contention_rate := (acc.contention_history.count true : ℚ) / (n : ℚ) * 100
           tps_effective := acc.tps_effective
           tps_finalized := acc.tps_finalized
           contention_history := acc.contention_history
           files_written := ["simulation_results.csv"] }

end SimA

namespace SimB

/-- The user-settings block of `tools/jam_datacenter_simulator.py`. -/
structure Config where
  C : Nat
  core_bandwidth : Nat
  P : Nat
  T : Nat
  work_package_size : Nat
  CHUNK_SIZE : Nat
  witness_size : Nat
  finality_delay_slots : Nat
  GAMMA_A : ℚ
  GAMMA_Z : ℚ

/-- The values of the user-settings block as shipped. -/
def defaultCfg : Config :=
  { C := 341
    core_bandwidth := 3125 * 1024 * 1024 / 341
    P := 6
    T := 128
    work_package_size := 13794305
    CHUNK_SIZE := 1024 * 1024
    witness_size := 640
    finality_delay_slots := 2
    GAMMA_A := 1 / 1000
    GAMMA_Z := 1 / 2000 }

/-- `workloads_for_slot`: per-scenario workload draw; every tag other than
`"stateless"` and `"state-heavy"` falls into the `else` (mixed) branch. -/
def workloads_for_slot (scenario : String) (s : RandStream) : Nat × RandStream :=
  if scenario = "stateless" then randint 5 15 s
  else if scenario = "state-heavy" then randint 15 30 s
  else randint 5 30 s

/-- Bytes core `i` needs to push this slot:
`chunks_per_core[i] * CHUNK_SIZE + witness_bytes` with
`witness_bytes = (num_workloads // C) * witness_size`. -/
def coreNeeded (cfg : Config) (chunks : List Nat) (num_workloads i : Nat) : Nat :=
  let witness_bytes := num_workloads / cfg.C * cfg.witness_size
  chunks.getD i 0 * cfg.CHUNK_SIZE + witness_bytes

/-- `capacity = core_bandwidth * P`. -/
def coreCapacity (cfg : Config) : Nat := cfg.core_bandwidth * cfg.P

/-- `slot_contended`: set whenever some core's needed bytes exceed its
capacity. -/
def slotContended (cfg : Config) (chunks : List Nat) (num_workloads : Nat) : Bool :=
  (List.range cfg.C).any fun i =>
    decide (coreCapacity cfg < coreNeeded cfg chunks num_workloads i)

/-- `processed_bytes`: per core `min(needed, capacity)`, summed over the pool. -/
def processedBytes (cfg : Config) (chunks : List Nat) (num_workloads : Nat) : Nat :=
  ((List.range cfg.C).map fun i =>
    min (coreNeeded cfg chunks num_workloads i) (coreCapacity cfg)).sum

/-- `effective_tps = ((processed / work_package_size) * T) / P`. -/
def effectiveTps (cfg : Config) (processed : Nat) : ℚ :=
  (processed : ℚ) / (cfg.work_package_size : ℚ) * (cfg.T : ℚ) / (cfg.P : ℚ)

/-- `slot_cost = GAMMA_A * num_workloads + GAMMA_Z * tickets`,
`tickets = num_workloads * T`. -/
def slotCost (cfg : Config) (num_workloads : Nat) : ℚ :=
  cfg.GAMMA_A * (num_workloads : ℚ) + cfg.GAMMA_Z * ((num_workloads * cfg.T : Nat) : ℚ)

/-- One slot of variant B's `run_simulation`: workload draw, chunking
(`total_chunks = num_workloads * (work_package_size // CHUNK_SIZE)`),
multinomial chunk distribution, capacity check, capped processed bytes,
effective TPS and cost.  This body cannot fail. -/
def step (cfg : Config) (scenario : String) (_slot : Nat) (s : RandStream) :
    SlotOut × RandStream :=
  let (nw, s1) := workloads_for_slot scenario s
  let total_chunks := nw * (cfg.work_package_size / cfg.CHUNK_SIZE)
  let (chunks, s2) := multinomial total_chunks cfg.C s1
  let processed := processedBytes cfg chunks nw
  ({ workload_count := nw
     contended := slotContended cfg chunks nw
     processed_bytes := processed
     effective_tps := effectiveTps cfg processed
     cost := slotCost cfg nw }, s2)

/-- The result dictionary of variant B's `run_simulation`.  The function
performs no file, display, or environment access; `files_written` records
that empty effect footprint. -/
structure Result where
  scenario : String
  theoretical_tps : ℚ
  avg_effective_tps : ℚ
  avg_finalized_tps : ℚ
  contention_rate_pct : ℚ
  avg_cost_per_slot_usd : ℚ
  effective_series : List ℚ
  finalized_series : List ℚ
  contention_series : List Bool
  cost_series : List ℚ
  files_written : List String

/-- `run_simulation(num_slots, scenario)` of
`tools/jam_datacenter_simulator.py`: a total function of the configuration,
the scenario tag, the slot count and the random stream. -/
def run (cfg : Config) (num_slots : Nat) (scenario : String) (s : RandStream) :
    Result :=
  let (acc, _) := slotLoopT (step cfg scenario) cfg.finality_delay_slots
    num_slots 0 s RunAcc.init
  { scenario := scenario
    theoretical_tps := (cfg.C : ℚ) * (cfg.T : ℚ) / (cfg.P : ℚ)
    avg_effective_tps := mean acc.tps_effective
    avg_finalized_tps := mean acc.tps_finalized
    contention_rate_pct := 100 * (acc.contention_history.count true : ℚ) / (num_slots : ℚ)
    avg_cost_per_slot_usd := mean acc.costs
    effective_series := acc.tps_effective
    finalized_series := acc.tps_finalized
    contention_series := acc.contention_history
    cost_series := acc.costs
    files_written := [] }

end SimB

/-! ## Generic list and arithmetic helpers -/

theorem getD_append_len {α : Type} (l : List α) (x d : α) :
    (l ++ [x]).getD l.length d = x := by
  rw [List.getD_append_right l [x] d l.length le_rfl]
  simp

theorem sum_range_map_le_mul (C B : Nat) (f : Nat → Nat) (h : ∀ i < C, f i ≤ B) :
    ((List.range C).map f).sum ≤ C * B := by
  induction C with
  | zero => simp
  | succ n ih =>
    rw [List.range_succ, List.map_append, List.sum_append]
    have h1 := ih fun i hi => h i (Nat.lt_succ_of_lt hi)
    have h2 := h n (Nat.lt_succ_self n)
    simp only [List.map_cons, List.map_nil, List.sum_cons, List.sum_nil]
    rw [Nat.succ_mul]
    omega

theorem sum_range_getD (l : List Nat) :
    ((List.range l.length).map fun i => l.getD i 0).sum = l.sum := by
  induction l with
  | nil => simp
  | cons x xs ih =>
    have hlen : (x :: xs).length = xs.length + 1 := rfl
    rw [hlen, List.range_succ_eq_map, List.map_cons, List.map_map, List.sum_cons]
    have : ((List.range xs.length).map ((fun i => (x :: xs).getD i 0) ∘ Nat.succ))
        = (List.range xs.length).map fun i => xs.getD i 0 := by
      apply List.map_congr_left
      intro i _
      rfl
    rw [this, ih]
    simp [List.sum_cons]

theorem sum_range_map_add (C : Nat) (f g : Nat → Nat) :
    ((List.range C).map fun i => f i + g i).sum
      = ((List.range C).map f).sum + ((List.range C).map g).sum := by
  induction C with
  | zero => simp
  | succ n ih =>
    rw [List.range_succ]
    simp only [List.map_append, List.sum_append, List.map_cons, List.map_nil,
      List.sum_cons, List.sum_nil, ih]
    omega

theorem sum_range_map_mul_right (C c : Nat) (f : Nat → Nat) :
    ((List.range C).map fun i => f i * c).sum = ((List.range C).map f).sum * c := by
  induction C with
  | zero => simp
  | succ n ih =>
    rw [List.range_succ]
    simp only [List.map_append, List.sum_append, List.map_cons, List.map_nil,
      List.sum_cons, List.sum_nil, ih]
    ring

theorem sum_range_map_const (C c : Nat) :
    ((List.range C).map fun _ => c).sum = C * c := by
  induction C with
  | zero => simp
  | succ n ih =>
    rw [List.range_succ]
    simp only [List.map_append, List.sum_append, List.map_cons, List.map_nil,
      List.sum_cons, List.sum_nil, ih]
    ring

theorem mean_le_of_forall_le (l : List ℚ) (b : ℚ) (hne : l ≠ [])
    (h : ∀ x ∈ l, x ≤ b) : mean l ≤ b := by
  have hsum : l.sum ≤ l.length • b := List.sum_le_card_nsmul l b h
  rw [nsmul_eq_mul] at hsum
  have hlen : (0 : ℚ) < (l.length : ℚ) := by
    have : 0 < l.length := List.length_pos.mpr hne
    exact_mod_cast this
  rw [mean, div_le_iff₀ hlen, mul_comm]
  exact hsum

/-! ## Random-draw bounds -/

theorem randint_le (a b : Nat) (s : RandStream) (hab : a ≤ b) :
    (randint a b s).1 ≤ b := by
  have h : (drawNat s).1 % (b - a + 1) < b - a + 1 :=
    Nat.mod_lt _ (Nat.succ_pos _)
  simp only [randint]
  omega

theorem randint_ge (a b : Nat) (s : RandStream) : a ≤ (randint a b s).1 := by
  simp only [randint]
  omega

/-! ## Multinomial distribution invariants -/

theorem incAt_length (l : List Nat) (i : Nat) : (incAt l i).length = l.length := by
  induction l generalizing i with
  | nil => rfl
  | cons x xs ih =>
    cases i with
    | zero => rfl
    | succ k => simp [incAt, ih]

theorem incAt_sum (l : List Nat) (i : Nat) (h : i < l.length) :
    (incAt l i).sum = l.sum + 1 := by
  induction l generalizing i with
  | nil => simp at h
  | cons x xs ih =>
    cases i with
    | zero => simp [incAt]; omega
    | succ k =>
      simp only [incAt, List.sum_cons]
      rw [ih k (by simpa using h)]
      omega

theorem multinomialGo_length (C : Nat) :
    ∀ (k : Nat) (acc : List Nat) (s : RandStream),
      (multinomialGo C k acc s).1.length = acc.length := by
  intro k
  induction k with
  | zero => intro acc s; rfl
  | succ n ih =>
    intro acc s
    simp only [multinomialGo]
    rw [ih]
    exact incAt_length _ _

theorem multinomialGo_sum (C : Nat) (hC : 0 < C) :
    ∀ (k : Nat) (acc : List Nat) (s : RandStream), acc.length = C →
      (multinomialGo C k acc s).1.sum = acc.sum + k := by
  intro k
  induction k with
  | zero => intro acc s _; rfl
  | succ n ih =>
    intro acc s hlen
    simp only [multinomialGo]
    rw [ih _ _ (by rw [incAt_length]; exact hlen)]
    rw [incAt_sum _ _ (by rw [hlen]; exact Nat.mod_lt _ hC)]
    omega

theorem multinomial_length (n C : Nat) (s : RandStream) :
    (multinomial n C s).1.length = C := by
  rw [multinomial, multinomialGo_length]
  exact List.length_replicate C 0

theorem multinomial_sum (n C : Nat) (s : RandStream) (hC : 0 < C) :
    (multinomial n C s).1.sum = n := by
  rw [multinomial, multinomialGo_sum C hC n _ s (List.length_replicate C 0)]
  simp

theorem multinomial_zero (C : Nat) (s : RandStream) :
    (multinomial 0 C s).1 = List.replicate C 0 := rfl

/-! ## Slot-loop invariants -/

theorem slotLoop_spec (step : Nat → RandStream → Option (SlotOut × RandStream))
    (delay : Nat) :
    ∀ (k slot : Nat) (s : RandStream) (acc res : RunAcc) (s2 : RandStream),
      acc.tps_effective.length = slot →
      acc.tps_finalized.length = slot →
      (∀ j < slot, acc.tps_finalized.getD j 0 =
        if delay ≤ j then acc.tps_effective.getD (j - delay) 0 else 0) →
      slotLoop step delay k slot s acc = some (res, s2) →
      res.tps_effective.length = slot + k ∧
      res.tps_finalized.length = slot + k ∧
      (∀ j < slot + k, res.tps_finalized.getD j 0 =
        if delay ≤ j then res.tps_effective.getD (j - delay) 0 else 0) := by
  intro k
  induction k with
  | zero =>
    intro slot s acc res s2 h1 h2 h3 hrun
    simp only [slotLoop, Option.some.injEq, Prod.mk.injEq] at hrun
    obtain ⟨rfl, rfl⟩ := hrun
    exact ⟨h1, h2, h3⟩
  | succ n ih =>
    intro slot s acc res s2 h1 h2 h3 hrun
    simp only [slotLoop] at hrun
    cases hstep : step slot s with
    | none => rw [hstep] at hrun; simp at hrun
    | some os =>
      obtain ⟨o, s1⟩ := os
      rw [hstep] at hrun
      have hp1 : (pushSlot delay slot o acc).tps_effective.length = slot + 1 := by
        simp [pushSlot, h1]
      have hp2 : (pushSlot delay slot o acc).tps_finalized.length = slot + 1 := by
        simp [pushSlot, h2]
      have hp3 : ∀ j < slot + 1, (pushSlot delay slot o acc).tps_finalized.getD j 0 =
          if delay ≤ j then (pushSlot delay slot o acc).tps_effective.getD (j - delay) 0
          else 0 := by
        intro j hj
        rcases Nat.lt_or_ge j slot with hlt | hge
        · have hfin : (pushSlot delay slot o acc).tps_finalized.getD j 0 =
              acc.tps_finalized.getD j 0 := by
            simp only [pushSlot]
            exact List.getD_append _ _ _ _ (by rw [h2]; exact hlt)
          rw [hfin, h3 j hlt]
          by_cases hd : delay ≤ j
          · simp only [hd, if_true]
            simp only [pushSlot]
            rw [List.getD_append _ _ _ _ (by rw [h1]; omega)]
          · simp [hd]
        · have hj' : slot = j := by omega
          subst hj'
          have hfin : (pushSlot delay slot o acc).tps_finalized.getD slot 0 =
              if delay ≤ slot then
                (acc.tps_effective ++ [o.effective_tps]).getD (slot - delay) 0
              else 0 := by
            simp only [pushSlot]
            have := getD_append_len acc.tps_finalized
              (if delay ≤ slot then
                 (acc.tps_effective ++ [o.effective_tps]).getD (slot - delay) 0
               else 0) 0
            rw [h2] at this
            exact this
          rw [hfin]
          rfl
      have hres := ih (slot + 1) s1 _ res s2 hp1 hp2 hp3 hrun
      refine ⟨by rw [hres.1]; omega, by rw [hres.2.1]; omega, ?_⟩
      intro j hj
      exact hres.2.2 j (by omega)

theorem slotLoop_eff_all (step : Nat → RandStream → Option (SlotOut × RandStream))
    (delay : Nat) (Q : ℚ → Prop)
    (hstep : ∀ slot s o s1, step slot s = some (o, s1) → Q o.effective_tps) :
    ∀ (k slot : Nat) (s : RandStream) (acc res : RunAcc) (s2 : RandStream),
      (∀ x ∈ acc.tps_effective, Q x) →
      slotLoop step delay k slot s acc = some (res, s2) →
      ∀ x ∈ res.tps_effective, Q x := by
  intro k
  induction k with
  | zero =>
    intro slot s acc res s2 hacc hrun
    simp only [slotLoop, Option.some.injEq, Prod.mk.injEq] at hrun
    obtain ⟨rfl, rfl⟩ := hrun
    exact hacc
  | succ n ih =>
    intro slot s acc res s2 hacc hrun
    simp only [slotLoop] at hrun
    cases hstep' : step slot s with
    | none => rw [hstep'] at hrun; simp at hrun
    | some os =>
      obtain ⟨o, s1⟩ := os
      rw [hstep'] at hrun
      refine ih (slot + 1) s1 _ res s2 ?_ hrun
      intro x hx
      simp only [pushSlot, List.mem_append, List.mem_singleton] at hx
      rcases hx with hx | rfl
      · exact hacc x hx
      · exact hstep slot s o s1 hstep'

theorem slotLoop_total (step : Nat → RandStream → Option (SlotOut × RandStream))
    (delay : Nat) (hstep : ∀ slot s, (step slot s).isSome) :
    ∀ (k slot : Nat) (s : RandStream) (acc : RunAcc),
      (slotLoop step delay k slot s acc).isSome := by
  intro k
  induction k with
  | zero => intro slot s acc; simp [slotLoop]
  | succ n ih =>
    intro slot s acc
    simp only [slotLoop]
    cases hstep' : step slot s with
    | none =>
      have := hstep slot s
      rw [hstep'] at this
      simp at this
    | some os =>
      obtain ⟨o, s1⟩ := os
      exact ih (slot + 1) s1 (pushSlot delay slot o acc)

theorem slotLoopT_eq (step : Nat → RandStream → SlotOut × RandStream) (delay : Nat) :
    ∀ (k slot : Nat) (s : RandStream) (acc : RunAcc),
      slotLoop (fun sl st => some (step sl st)) delay k slot s acc
        = some (slotLoopT step delay k slot s acc) := by
  intro k
  induction k with
  | zero => intro slot s acc; rfl
  | succ n ih =>
    intro slot s acc
    cases hs : step slot s with
    | mk o s1 => simp only [slotLoop, slotLoopT, hs, ih]

/-! ## Variant A: run inversion and per-step facts -/

theorem simA_run_inv (cfg : SimA.Config) (n : Nat) (scen : String) (em : Bool)
    (s : RandStream) (res : SimA.Result)
    (h : SimA.run cfg n scen em s = some res) :
    ∃ acc s2,
      slotLoop (SimA.step cfg scen em) cfg.finality_delay_slots
          (if em then 600 else n) 0 s RunAcc.init = some (acc, s2) ∧
      res.tps_effective = acc.tps_effective ∧
      res.tps_finalized = acc.tps_finalized ∧
      res.avg_tps_effective = mean acc.tps_effective ∧
      res.tps_theoretical = (cfg.C : ℚ) * (cfg.T : ℚ) / (cfg.P : ℚ) ∧
      res.files_written = ["simulation_results.csv"] := by
  simp only [SimA.run] at h
  cases hl : slotLoop (SimA.step cfg scen em) cfg.finality_delay_slots
      (if em then 600 else n) 0 s RunAcc.init with
  | none => rw [hl] at h; simp at h
  | some p =>
    obtain ⟨acc, s2⟩ := p
    rw [hl] at h
    simp only [Option.some.injEq] at h
    exact ⟨acc, s2, rfl, by rw [← h], by rw [← h], by rw [← h], by rw [← h],
      by rw [← h]⟩

theorem simA_scenarioDraw_isSome (scen : String) (s : RandStream)
    (h : scen = "stateless" ∨ scen = "state-heavy" ∨ scen = "mixed") :
    (SimA.scenarioDraw scen s).isSome := by
  rcases h with rfl | rfl | rfl
  · rfl
  · rfl
  · simp only [SimA.scenarioDraw]
    norm_num
    by_cases hc : (drawNat s).1 % 10 < 8 <;> simp [hc]

theorem simA_step_isSome (cfg : SimA.Config) (scen : String) (em : Bool)
    (slot : Nat) (s : RandStream)
    (h : scen = "stateless" ∨ scen = "state-heavy" ∨ scen = "mixed") :
    (SimA.step cfg scen em slot s).isSome := by
  simp only [SimA.step]
  obtain ⟨v, hv⟩ := Option.isSome_iff_exists.mp (simA_scenarioDraw_isSome scen
    (if em && slot % 100 == 0 then (randint 0 (2 ^ 32 - 1) s).2 else s) h)
  rw [hv]
  obtain ⟨w, wit, s2⟩ := v
  simp

theorem simA_step_none (cfg : SimA.Config) (scen : String) (em : Bool)
    (slot : Nat) (s : RandStream)
    (h1 : scen ≠ "stateless") (h2 : scen ≠ "state-heavy") (h3 : scen ≠ "mixed") :
    SimA.step cfg scen em slot s = none := by
  simp [SimA.step, SimA.scenarioDraw, h1, h2, h3]

theorem simA_step_out (cfg : SimA.Config) (scen : String) (em : Bool) (slot : Nat)
    (s : RandStream) (o : SlotOut) (s1 : RandStream)
    (h : SimA.step cfg scen em slot s = some (o, s1)) :
    ∃ (w wit : Nat) (wl witl : List Nat),
      wl.length = cfg.C ∧ witl.length = cfg.C ∧
      o = { workload_count := w
            contended := decide (0 < SimA.contentionCount cfg wl witl)
            processed_bytes := SimA.processedBytes cfg wl witl
            effective_tps := SimA.effectiveTps cfg (SimA.processedBytes cfg wl witl)
            cost := SimA.slotCost cfg w } := by
  simp only [SimA.step] at h
  cases hd : SimA.scenarioDraw scen
      (if em && slot % 100 == 0 then (randint 0 (2 ^ 32 - 1) s).2 else s) with
  | none => rw [hd] at h; simp at h
  | some v =>
    obtain ⟨w, wit, s2⟩ := v
    rw [hd] at h
    simp only [Option.some.injEq, Prod.mk.injEq] at h
    refine ⟨w, wit, (multinomial w cfg.C s2).1,
      (multinomial wit cfg.C (multinomial w cfg.C s2).2).1,
      multinomial_length _ _ _, multinomial_length _ _ _, ?_⟩
    exact h.1.symm

theorem simA_processed_le_cap (cfg : SimA.Config) (wl witl : List Nat) :
    SimA.processedBytes cfg wl witl ≤ cfg.C * (cfg.core_bandwidth * cfg.P) :=
  sum_range_map_le_mul _ _ _ fun _ _ => min_le_left _ _

theorem simA_processed_le_demand (cfg : SimA.Config) (wl witl : List Nat) :
    SimA.processedBytes cfg wl witl ≤
      ((List.range cfg.C).map (SimA.coreDemand cfg wl witl)).sum :=
  List.sum_le_sum fun _ _ => min_le_right _ _

theorem simA_eff_le_theoretical (processed : Nat)
    (hp : processed ≤ 341 * (2097152 * 6)) :
    SimA.effectiveTps SimA.defaultCfg processed ≤ (341 : ℚ) * 128 / 6 := by
  simp only [SimA.effectiveTps, SimA.defaultCfg]
  have h1 : (processed : ℚ) ≤ 341 * 13794305 := by
    have h2 : (processed : ℚ) ≤ 341 * (2097152 * 6) := by exact_mod_cast hp
    linarith
  calc (processed : ℚ) / ((13794305 : Nat) : ℚ) * ((128 : Nat) : ℚ) / ((6 : Nat) : ℚ)
      ≤ (341 * 13794305 : ℚ) / ((13794305 : Nat) : ℚ) * ((128 : Nat) : ℚ)
          / ((6 : Nat) : ℚ) := by
        gcongr
    _ = (341 : ℚ) * 128 / 6 := by norm_num

theorem simA_step_eff_le (scen : String) (em : Bool) (slot : Nat) (s : RandStream)
    (o : SlotOut) (s1 : RandStream)
    (h : SimA.step SimA.defaultCfg scen em slot s = some (o, s1)) :
    o.effective_tps ≤ (341 : ℚ) * 128 / 6 := by
  obtain ⟨w, wit, wl, witl, _, _, rfl⟩ := simA_step_out _ _ _ _ _ _ _ h
  exact simA_eff_le_theoretical _
    (le_trans (simA_processed_le_cap _ _ _) (by norm_num [SimA.defaultCfg]))

/-! ## Variant B: run accessors and per-step facts -/

theorem simB_run_acc (cfg : SimB.Config) (n : Nat) (scen : String) (s : RandStream) :
    (SimB.run cfg n scen s).effective_series =
      (slotLoopT (SimB.step cfg scen) cfg.finality_delay_slots n 0 s
        RunAcc.init).1.tps_effective ∧
    (SimB.run cfg n scen s).finalized_series =
      (slotLoopT (SimB.step cfg scen) cfg.finality_delay_slots n 0 s
        RunAcc.init).1.tps_finalized ∧
    (SimB.run cfg n scen s).avg_effective_tps =
      mean (slotLoopT (SimB.step cfg scen) cfg.finality_delay_slots n 0 s
        RunAcc.init).1.tps_effective ∧
    (SimB.run cfg n scen s).theoretical_tps =
      (cfg.C : ℚ) * (cfg.T : ℚ) / (cfg.P : ℚ) ∧
    (SimB.run cfg n scen s).files_written = [] :=
  ⟨rfl, rfl, rfl, rfl, rfl⟩

theorem simB_series_spec (cfg : SimB.Config) (n : Nat) (scen : String)
    (s : RandStream) :
    (SimB.run cfg n scen s).effective_series.length = n ∧
    (SimB.run cfg n scen s).finalized_series.length = n ∧
    (∀ j < n, (SimB.run cfg n scen s).finalized_series.getD j 0 =
      if cfg.finality_delay_slots ≤ j then
        (SimB.run cfg n scen s).effective_series.getD
          (j - cfg.finality_delay_slots) 0
      else 0) := by
  have h := slotLoop_spec (fun sl st => some (SimB.step cfg scen sl st))
    cfg.finality_delay_slots n 0 s RunAcc.init
    (slotLoopT (SimB.step cfg scen) cfg.finality_delay_slots n 0 s RunAcc.init).1
    (slotLoopT (SimB.step cfg scen) cfg.finality_delay_slots n 0 s RunAcc.init).2
    rfl rfl (fun j hj => absurd hj (Nat.not_lt_zero j))
    (by rw [slotLoopT_eq])
  obtain ⟨h1, h2, h3⟩ := h
  obtain ⟨ha, hb, -, -, -⟩ := simB_run_acc cfg n scen s
  refine ⟨?_, ?_, ?_⟩
  · rw [ha, h1]; omega
  · rw [hb, h2]; omega
  · intro j hj
    rw [ha, hb]
    exact h3 j (by omega)

theorem simB_processed_le_cap (cfg : SimB.Config) (chunks : List Nat) (nw : Nat) :
    SimB.processedBytes cfg chunks nw ≤ cfg.C * SimB.coreCapacity cfg :=
  sum_range_map_le_mul _ _ _ fun _ _ => min_le_right _ _

theorem simB_processed_le_demand (cfg : SimB.Config) (chunks : List Nat) (nw : Nat) :
    SimB.processedBytes cfg chunks nw ≤
      ((List.range cfg.C).map fun i => SimB.coreNeeded cfg chunks nw i).sum :=
  List.sum_le_sum fun _ _ => min_le_left _ _

theorem simB_needed_sum (cfg : SimB.Config) (chunks : List Nat) (nw : Nat)
    (hlen : chunks.length = cfg.C) :
    ((List.range cfg.C).map fun i => SimB.coreNeeded cfg chunks nw i).sum
      = chunks.sum * cfg.CHUNK_SIZE + cfg.C * (nw / cfg.C * cfg.witness_size) := by
  simp only [SimB.coreNeeded]
  rw [sum_range_map_add, sum_range_map_mul_right, sum_range_map_const]
  congr 1
  rw [← hlen, sum_range_getD]

theorem simB_workloads_le (scen : String) (s : RandStream) :
    (SimB.workloads_for_slot scen s).1 ≤ 30 := by
  by_cases h1 : scen = "stateless"
  · simp only [SimB.workloads_for_slot, h1, if_true]
    exact le_trans (randint_le 5 15 s (by norm_num)) (by norm_num)
  · by_cases h2 : scen = "state-heavy"
    · simp only [SimB.workloads_for_slot, h1, h2, if_false, if_true]
      exact randint_le 15 30 s (by norm_num)
    · simp only [SimB.workloads_for_slot, h1, h2, if_false]
      exact randint_le 5 30 s (by norm_num)

theorem simB_step_fields (cfg : SimB.Config) (scen : String) (slot : Nat)
    (s : RandStream) :
    (SimB.step cfg scen slot s).1 =
      { workload_count := (SimB.workloads_for_slot scen s).1
        contended := SimB.slotContended cfg
          (multinomial ((SimB.workloads_for_slot scen s).1 *
            (cfg.work_package_size / cfg.CHUNK_SIZE)) cfg.C
            (SimB.workloads_for_slot scen s).2).1
          (SimB.workloads_for_slot scen s).1
        processed_bytes := SimB.processedBytes cfg
          (multinomial ((SimB.workloads_for_slot scen s).1 *
            (cfg.work_package_size / cfg.CHUNK_SIZE)) cfg.C
            (SimB.workloads_for_slot scen s).2).1
          (SimB.workloads_for_slot scen s).1
        effective_tps := SimB.effectiveTps cfg (SimB.processedBytes cfg
          (multinomial ((SimB.workloads_for_slot scen s).1 *
            (cfg.work_package_size / cfg.CHUNK_SIZE)) cfg.C
            (SimB.workloads_for_slot scen s).2).1
          (SimB.workloads_for_slot scen s).1)
        cost := SimB.slotCost cfg (SimB.workloads_for_slot scen s).1 } := rfl

theorem simB_step_processed_le (scen : String) (slot : Nat) (s : RandStream) :
    (SimB.step SimB.defaultCfg scen slot s).1.processed_bytes ≤ 408944640 := by
  rw [simB_step_fields]
  set nw := (SimB.workloads_for_slot scen s).1 with hnw
  set chunks := (multinomial (nw * (SimB.defaultCfg.work_package_size /
    SimB.defaultCfg.CHUNK_SIZE)) SimB.defaultCfg.C
    (SimB.workloads_for_slot scen s).2).1 with hchunks
  have hlen : chunks.length = SimB.defaultCfg.C := multinomial_length _ _ _
  have hsum : chunks.sum = nw * (SimB.defaultCfg.work_package_size /
      SimB.defaultCfg.CHUNK_SIZE) := by
    rw [hchunks]
    exact multinomial_sum _ _ _ (by norm_num [SimB.defaultCfg])
  have hnw30 : nw ≤ 30 := simB_workloads_le scen s
  have hdiv : nw / SimB.defaultCfg.C = 0 := by
    apply Nat.div_eq_of_lt
    have : (341 : Nat) ≤ SimB.defaultCfg.C := by norm_num [SimB.defaultCfg]
    omega
  calc (SimB.step SimB.defaultCfg scen slot s).1.processed_bytes
      = SimB.processedBytes SimB.defaultCfg chunks nw := by rw [simB_step_fields]
    _ ≤ ((List.range SimB.defaultCfg.C).map fun i =>
          SimB.coreNeeded SimB.defaultCfg chunks nw i).sum :=
        simB_processed_le_demand _ _ _
    _ = chunks.sum * SimB.defaultCfg.CHUNK_SIZE +
          SimB.defaultCfg.C * (nw / SimB.defaultCfg.C *
            SimB.defaultCfg.witness_size) := simB_needed_sum _ _ _ hlen
    _ ≤ 408944640 := by
        rw [hsum, hdiv]
        have hq : SimB.defaultCfg.work_package_size / SimB.defaultCfg.CHUNK_SIZE
            = 13 := by norm_num [SimB.defaultCfg]
        rw [hq]
        have hcs : SimB.defaultCfg.CHUNK_SIZE = 1048576 := by
          norm_num [SimB.defaultCfg]
        rw [hcs]
        simp
        nlinarith

theorem simB_eff_le_theoretical (processed : Nat) (hp : processed ≤ 408944640) :
    SimB.effectiveTps SimB.defaultCfg processed ≤ (341 : ℚ) * 128 / 6 := by
  simp only [SimB.effectiveTps, SimB.defaultCfg]
  have h1 : (processed : ℚ) ≤ 341 * 13794305 := by
    have h2 : (processed : ℚ) ≤ 408944640 := by exact_mod_cast hp
    linarith
  calc (processed : ℚ) / ((13794305 : Nat) : ℚ) * ((128 : Nat) : ℚ) / ((6 : Nat) : ℚ)
      ≤ (341 * 13794305 : ℚ) / ((13794305 : Nat) : ℚ) * ((128 : Nat) : ℚ)
          / ((6 : Nat) : ℚ) := by
        gcongr
    _ = (341 : ℚ) * 128 / 6 := by norm_num

theorem simB_step_eff_le (scen : String) (slot : Nat) (s : RandStream) :
    (SimB.step SimB.defaultCfg scen slot s).1.effective_tps ≤ (341 : ℚ) * 128 / 6 := by
  have hp := simB_step_processed_le scen slot s
  rw [simB_step_fields] at hp ⊢
  exact simB_eff_le_theoretical _ hp

theorem simA_overRate_iff (cfg : SimA.Config) (hP : 0 < cfg.P)
    (wl witl : List Nat) (i : Nat) :
    SimA.coreOverRate cfg wl witl i = true ↔
      cfg.core_bandwidth * cfg.P < SimA.coreDemand cfg wl witl i := by
  simp only [SimA.coreOverRate, decide_eq_true_eq]
  rw [lt_div_iff₀ (by exact_mod_cast hP : (0 : ℚ) < (cfg.P : ℚ))]
  constructor
  · intro h; exact_mod_cast h
  · intro h; exact_mod_cast h

theorem simA_count_pos_iff (cfg : SimA.Config) (wl witl : List Nat) :
    0 < SimA.contentionCount cfg wl witl ↔
      ∃ i < cfg.C, SimA.coreOverRate cfg wl witl i = true := by
  rw [SimA.contentionCount, List.length_pos]
  rw [Ne, List.filter_eq_nil_iff]
  push_neg
  constructor
  · rintro ⟨i, hmem, hp⟩
    exact ⟨i, List.mem_range.mp hmem, by simpa using hp⟩
  · rintro ⟨i, hlt, hp⟩
    exact ⟨i, List.mem_range.mpr hlt, by simpa using hp⟩

/-! ## Claim theorems -/

/-- Claim C3: in both variants a slot is flagged contended iff there exists a
core index `i` with `demand_bytes(i) > capacity_bytes(i)`
(`capacity_bytes(i) = per_core_bandwidth * slot_seconds`), an OR over all
cores; and with `core_count = 1` the flag is determined solely by whether the
single core's demanded bytes exceed `per_core_bandwidth * slot_seconds`. -/
theorem claim_C3_contended_iff :
    (∀ (cfg : SimA.Config), 0 < cfg.P → ∀ (wl witl : List Nat),
      (0 < SimA.contentionCount cfg wl witl ↔
        ∃ i < cfg.C, cfg.core_bandwidth * cfg.P < SimA.coreDemand cfg wl witl i)) ∧
    (∀ (cfg : SimB.Config) (chunks : List Nat) (nw : Nat),
      (SimB.slotContended cfg chunks nw = true ↔
        ∃ i < cfg.C, SimB.coreCapacity cfg < SimB.coreNeeded cfg chunks nw i)) ∧
    (∀ (cfg : SimA.Config), 0 < cfg.P → cfg.C = 1 → ∀ (wl witl : List Nat),
      (0 < SimA.contentionCount cfg wl witl ↔
        cfg.core_bandwidth * cfg.P < SimA.coreDemand cfg wl witl 0)) := by
  have hB : ∀ (cfg : SimB.Config) (chunks : List Nat) (nw : Nat),
      (SimB.slotContended cfg chunks nw = true ↔
        ∃ i < cfg.C, SimB.coreCapacity cfg < SimB.coreNeeded cfg chunks nw i) := by
    intro cfg chunks nw
    rw [SimB.slotContended, List.any_eq_true]
    constructor
    · rintro ⟨i, hmem, hp⟩
      exact ⟨i, List.mem_range.mp hmem, by simpa using hp⟩
    · rintro ⟨i, hlt, hp⟩
      exact ⟨i, List.mem_range.mpr hlt, by simpa using hp⟩
  have hA : ∀ (cfg : SimA.Config), 0 < cfg.P → ∀ (wl witl : List Nat),
      (0 < SimA.contentionCount cfg wl witl ↔
        ∃ i < cfg.C, cfg.core_bandwidth * cfg.P < SimA.coreDemand cfg wl witl i) := by
    intro cfg hP wl witl
    rw [simA_count_pos_iff]
    constructor
    · rintro ⟨i, hlt, hp⟩
      exact ⟨i, hlt, (simA_overRate_iff cfg hP wl witl i).mp hp⟩
    · rintro ⟨i, hlt, hp⟩
      exact ⟨i, hlt, (simA_overRate_iff cfg hP wl witl i).mpr hp⟩
  refine ⟨hA, hB, ?_⟩
  intro cfg hP hC wl witl
  rw [hA cfg hP wl witl]
  constructor
  · rintro ⟨i, hlt, hp⟩
    have : i = 0 := by omega
    subst this
    exact hp
  · intro hp
    exact ⟨0, by omega, hp⟩

/-- Witness for C3: concrete instantiation with one workload on core 0 of a
single-core pool, whose demand exceeds the capacity. -/
theorem claim_C3_witness :
    0 < SimA.defaultCfg.P ∧
    (0 < SimA.contentionCount SimA.defaultCfg [7] [0] ↔
      ∃ i < SimA.defaultCfg.C,
        SimA.defaultCfg.core_bandwidth * SimA.defaultCfg.P <
          SimA.coreDemand SimA.defaultCfg [7] [0] i) ∧
    ({ SimA.defaultCfg with C := 1 } : SimA.Config).C = 1 ∧
    (0 < SimA.contentionCount { SimA.defaultCfg with C := 1 } [7] [0] ↔
      ({ SimA.defaultCfg with C := 1 } : SimA.Config).core_bandwidth *
          ({ SimA.defaultCfg with C := 1 } : SimA.Config).P <
        SimA.coreDemand { SimA.defaultCfg with C := 1 } [7] [0] 0) :=
  ⟨by norm_num [SimA.defaultCfg],
   claim_C3_contended_iff.1 SimA.defaultCfg (by norm_num [SimA.defaultCfg]) [7] [0],
   rfl,
   claim_C3_contended_iff.2.2 { SimA.defaultCfg with C := 1 }
     (by norm_num [SimA.defaultCfg]) rfl [7] [0]⟩

/-- Claim C4: in both variants the transmitted bytes of a slot equal the sum
over cores of `min(demand_bytes(i), capacity_bytes(i))`, and are therefore at
most the total capacity `sum(capacity_bytes(i))` and at most the total
demanded bytes. -/
theorem claim_C4_transmitted_bytes :
    (∀ (cfg : SimA.Config) (wl witl : List Nat),
      SimA.processedBytes cfg wl witl =
        ((List.range cfg.C).map fun i =>
          min (SimA.coreDemand cfg wl witl i) (cfg.core_bandwidth * cfg.P)).sum ∧
      SimA.processedBytes cfg wl witl ≤
        ((List.range cfg.C).map fun _ => cfg.core_bandwidth * cfg.P).sum ∧
      SimA.processedBytes cfg wl witl ≤
        ((List.range cfg.C).map (SimA.coreDemand cfg wl witl)).sum) ∧
    (∀ (cfg : SimB.Config) (chunks : List Nat) (nw : Nat),
      SimB.processedBytes cfg chunks nw =
        ((List.range cfg.C).map fun i =>
          min (SimB.coreNeeded cfg chunks nw i) (SimB.coreCapacity cfg)).sum ∧
      SimB.processedBytes cfg chunks nw ≤
        ((List.range cfg.C).map fun _ => SimB.coreCapacity cfg).sum ∧
      SimB.processedBytes cfg chunks nw ≤
        ((List.range cfg.C).map fun i => SimB.coreNeeded cfg chunks nw i).sum) := by
  constructor
  · intro cfg wl witl
    refine ⟨?_, ?_, simA_processed_le_demand cfg wl witl⟩
    · rw [SimA.processedBytes]
      exact congrArg List.sum (List.map_congr_left fun i _ => min_comm _ _)
    · rw [sum_range_map_const]
      exact simA_processed_le_cap cfg wl witl
  · intro cfg chunks nw
    refine ⟨rfl, ?_, simB_processed_le_demand cfg chunks nw⟩
    rw [sum_range_map_const]
    exact simB_processed_le_cap cfg chunks nw

/-- Claim C5: in both variants the effective TPS of a slot equals
`(transmitted_bytes / work_package_bytes) * extrinsics_per_package /
slot_seconds`, with transmitted bytes contributing fractionally (exact
rational division, no rounding to whole packages). -/
theorem claim_C5_effective_tps :
    (∀ (cfg : SimA.Config) (scen : String) (em : Bool) (slot : Nat)
        (s s1 : RandStream) (o : SlotOut),
      SimA.step cfg scen em slot s = some (o, s1) →
      o.effective_tps = (o.processed_bytes : ℚ) / (cfg.work_package_size : ℚ)
        * (cfg.T : ℚ) / (cfg.P : ℚ)) ∧
    (∀ (cfg : SimB.Config) (scen : String) (slot : Nat) (s : RandStream),
      (SimB.step cfg scen slot s).1.effective_tps =
        ((SimB.step cfg scen slot s).1.processed_bytes : ℚ) /
          (cfg.work_package_size : ℚ) * (cfg.T : ℚ) / (cfg.P : ℚ)) := by
  constructor
  · intro cfg scen em slot s s1 o h
    obtain ⟨w, wit, wl, witl, -, -, rfl⟩ := simA_step_out _ _ _ _ _ _ _ h
    rfl
  · intro cfg scen slot s
    rfl

/-- Witness for C5: the stateless slot body of variant A at the default
configuration on the zero stream satisfies the TPS formula. -/
theorem claim_C5_witness :
    (SimA.step SimA.defaultCfg "stateless" false 0 zStream).map
        (fun p => p.1.effective_tps) =
      (SimA.step SimA.defaultCfg "stateless" false 0 zStream).map
        (fun p => (p.1.processed_bytes : ℚ) /
          (SimA.defaultCfg.work_package_size : ℚ) * (SimA.defaultCfg.T : ℚ) /
          (SimA.defaultCfg.P : ℚ)) := by
  obtain ⟨p, hp⟩ := Option.isSome_iff_exists.mp
    (simA_step_isSome SimA.defaultCfg "stateless" false 0 zStream (Or.inl rfl))
  have h := claim_C5_effective_tps.1 SimA.defaultCfg "stateless" false 0
    zStream p.2 p.1 (by rw [hp])
  rw [hp, Option.map_some', Option.map_some', h]

/-- Claim C7: the multinomial distributor returns a length-`core_count`
sequence of (non-negative, by their `Nat` type) integers summing exactly to
the distributed total — this is the same function that draws the witness
allocation in variant A, which therefore sums to the witness count — and a
zero total yields the all-zero allocation. -/
theorem claim_C7_distribution_invariant (n C : Nat) (s : RandStream)
    (hC : 0 < C) :
    (multinomial n C s).1.length = C ∧
    (multinomial n C s).1.sum = n ∧
    (n = 0 → (multinomial n C s).1 = List.replicate C 0) :=
  ⟨multinomial_length n C s, multinomial_sum n C s hC,
    fun h => by subst h; rfl⟩

/-- Witness for C7: distributing 3 units over 2 cores on the zero stream. -/
theorem claim_C7_witness :
    (multinomial 3 2 zStream).1.length = 2 ∧
    (multinomial 3 2 zStream).1.sum = 3 ∧
    (3 = 0 → (multinomial 3 2 zStream).1 = List.replicate 2 0) :=
  claim_C7_distribution_invariant 3 2 zStream (by decide)

/-- Claim C9: in variant B, the bytes core `i` must push in a slot equal
`allocation[i] * CHUNK_SIZE` plus the approximated even witness share
`(num_workloads / core_count) * witness_size` (one witness per workload,
shared evenly by integer division); the slot body's processed bytes are
computed from exactly these per-core demands. -/
theorem claim_C9_demand_formula :
    (∀ (cfg : SimB.Config) (chunks : List Nat) (nw i : Nat),
      SimB.coreNeeded cfg chunks nw i =
        chunks.getD i 0 * cfg.CHUNK_SIZE + nw / cfg.C * cfg.witness_size) ∧
    (∀ (cfg : SimB.Config) (scen : String) (slot : Nat) (s : RandStream),
      (SimB.step cfg scen slot s).1.processed_bytes =
        ((List.range cfg.C).map fun i =>
          min ((multinomial ((SimB.workloads_for_slot scen s).1 *
              (cfg.work_package_size / cfg.CHUNK_SIZE)) cfg.C
              (SimB.workloads_for_slot scen s).2).1.getD i 0 * cfg.CHUNK_SIZE +
            (SimB.workloads_for_slot scen s).1 / cfg.C * cfg.witness_size)
            (SimB.coreCapacity cfg)).sum) :=
  ⟨fun _ _ _ _ => rfl, fun _ _ _ _ => rfl⟩

theorem simA_run_isSome (cfg : SimA.Config) (n : Nat) (scen : String) (em : Bool)
    (s : RandStream)
    (h : scen = "stateless" ∨ scen = "state-heavy" ∨ scen = "mixed") :
    (SimA.run cfg n scen em s).isSome := by
  simp only [SimA.run]
  have ht := slotLoop_total (SimA.step cfg scen em) cfg.finality_delay_slots
    (fun slot s' => simA_step_isSome cfg scen em slot s' h)
    (if em then 600 else n) 0 s RunAcc.init
  obtain ⟨p, hp⟩ := Option.isSome_iff_exists.mp ht
  obtain ⟨acc, s2⟩ := p
  rw [hp]
  rfl

theorem simA_run_spec (cfg : SimA.Config) (n : Nat) (scen : String) (em : Bool)
    (s : RandStream) (res : SimA.Result)
    (h : SimA.run cfg n scen em s = some res) :
    res.tps_effective.length = (if em then 600 else n) ∧
    res.tps_finalized.length = (if em then 600 else n) ∧
    (∀ j < (if em then 600 else n), res.tps_finalized.getD j 0 =
      if cfg.finality_delay_slots ≤ j then
        res.tps_effective.getD (j - cfg.finality_delay_slots) 0
      else 0) := by
  obtain ⟨acc, s2, hl, he, hf, -, -, -⟩ := simA_run_inv cfg n scen em s res h
  have hspec := slotLoop_spec (SimA.step cfg scen em) cfg.finality_delay_slots
    (if em then 600 else n) 0 s RunAcc.init acc s2 rfl rfl
    (fun j hj => absurd hj (Nat.not_lt_zero j)) hl
  rw [he, hf]
  exact ⟨by rw [hspec.1]; omega, by rw [hspec.2.1]; omega,
    fun j hj => hspec.2.2 j (by omega)⟩

/-- Claim C2: in both variants the finalized TPS of slot `s` equals the
effective TPS of slot `s - finality_delay_slots` whenever
`s >= finality_delay_slots`, and is the zero sentinel for every earlier
slot. -/
theorem claim_C2_finality_shift :
    (∀ (cfg : SimA.Config) (n : Nat) (scen : String) (em : Bool)
        (s : RandStream) (res : SimA.Result),
      SimA.run cfg n scen em s = some res →
      ∀ j < res.tps_finalized.length,
        (cfg.finality_delay_slots ≤ j →
          res.tps_finalized.getD j 0 =
            res.tps_effective.getD (j - cfg.finality_delay_slots) 0) ∧
        (j < cfg.finality_delay_slots → res.tps_finalized.getD j 0 = 0)) ∧
    (∀ (cfg : SimB.Config) (n : Nat) (scen : String) (s : RandStream),
      ∀ j < (SimB.run cfg n scen s).finalized_series.length,
        (cfg.finality_delay_slots ≤ j →
          (SimB.run cfg n scen s).finalized_series.getD j 0 =
            (SimB.run cfg n scen s).effective_series.getD
              (j - cfg.finality_delay_slots) 0) ∧
        (j < cfg.finality_delay_slots →
          (SimB.run cfg n scen s).finalized_series.getD j 0 = 0)) := by
  constructor
  · intro cfg n scen em s res h j hj
    obtain ⟨h1, h2, h3⟩ := simA_run_spec cfg n scen em s res h
    have hj' : j < (if em then 600 else n) := by rw [← h2]; exact hj
    have := h3 j hj'
    constructor
    · intro hd
      rw [this, if_pos hd]
    · intro hd
      rw [this, if_neg (by omega)]
  · intro cfg n scen s j hj
    obtain ⟨h1, h2, h3⟩ := simB_series_spec cfg n scen s
    have hj' : j < n := by rw [← h2]; exact hj
    have := h3 j hj'
    constructor
    · intro hd
      rw [this, if_pos hd]
    · intro hd
      rw [this, if_neg (by omega)]

/-- Witness for C2: a three-slot stateless run of variant A at the default
configuration (finality delay 2) has `finalized[2] = effective[0]` and
`finalized[1] = 0`; the same holds for slot 2 of a variant B run. -/
theorem claim_C2_witness :
    (SimA.run SimA.defaultCfg 3 "stateless" false zStream).map
        (fun r => r.tps_finalized.getD 2 0) =
      (SimA.run SimA.defaultCfg 3 "stateless" false zStream).map
        (fun r => r.tps_effective.getD 0 0) ∧
    (SimA.run SimA.defaultCfg 3 "stateless" false zStream).map
        (fun r => r.tps_finalized.getD 1 0) = some 0 ∧
    (SimB.run SimB.defaultCfg 3 "mixed" zStream).finalized_series.getD 2 0 =
      (SimB.run SimB.defaultCfg 3 "mixed" zStream).effective_series.getD 0 0 := by
  obtain ⟨res, hres⟩ := Option.isSome_iff_exists.mp
    (simA_run_isSome SimA.defaultCfg 3 "stateless" false zStream (Or.inl rfl))
  have hlen := (simA_run_spec SimA.defaultCfg 3 "stateless" false zStream res hres).2.1
  have h2 := (claim_C2_finality_shift.1 SimA.defaultCfg 3 "stateless" false zStream
    res hres 2 (by rw [hlen]; norm_num)).1 (by norm_num [SimA.defaultCfg])
  have h1 := (claim_C2_finality_shift.1 SimA.defaultCfg 3 "stateless" false zStream
    res hres 1 (by rw [hlen]; norm_num)).2 (by norm_num [SimA.defaultCfg])
  have hBlen := (simB_series_spec SimB.defaultCfg 3 "mixed" zStream).2.1
  have hB := (claim_C2_finality_shift.2 SimB.defaultCfg 3 "mixed" zStream 2
    (by rw [hBlen]; norm_num)).1 (by norm_num [SimB.defaultCfg])
  have hd2 : 2 - SimA.defaultCfg.finality_delay_slots = 0 := by
    norm_num [SimA.defaultCfg]
  rw [hd2] at h2
  have hdB : 2 - SimB.defaultCfg.finality_delay_slots = 0 := by
    norm_num [SimB.defaultCfg]
  rw [hdB] at hB
  refine ⟨?_, ?_, hB⟩
  · rw [hres, Option.map_some', Option.map_some', h2]
  · rw [hres, Option.map_some', h1]

/-- Claim C10: in variant A, `epoch_mode = true` makes the run simulate
exactly 600 slots whatever `num_slots` argument is passed. -/
theorem claim_C10_epoch_override (cfg : SimA.Config) (n : Nat) (scen : String)
    (s : RandStream)
    (h : scen = "stateless" ∨ scen = "state-heavy" ∨ scen = "mixed") :
    ∃ res, SimA.run cfg n scen true s = some res ∧
      res.tps_effective.length = 600 := by
  obtain ⟨res, hres⟩ := Option.isSome_iff_exists.mp
    (simA_run_isSome cfg n scen true s h)
  have hlen := (simA_run_spec cfg n scen true s res hres).1
  rw [if_pos rfl] at hlen
  exact ⟨res, hres, hlen⟩

/-- Witness for C10: a mixed-scenario epoch run called with `num_slots = 7`
still produces 600 effective-TPS entries. -/
theorem claim_C10_witness :
    (SimA.run SimA.defaultCfg 7 "mixed" true zStream).map
      (fun r => r.tps_effective.length) = some 600 := by
  obtain ⟨res, hres, hlen⟩ :=
    claim_C10_epoch_override SimA.defaultCfg 7 "mixed" zStream (Or.inr (Or.inr rfl))
  rw [hres, Option.map_some', hlen]

/-- Claim C6: at the shipped parameter values of both variants,
`theoretical_tps = core_count * extrinsics_per_package / slot_seconds =
341 * 128 / 6` is a constant independent of every random draw (the statement
quantifies over the whole random stream), and the average effective TPS of
any run with at least one slot is at most `theoretical_tps`. -/
theorem claim_C6_theoretical_bound :
    (∀ (n : Nat) (scen : String) (em : Bool) (s : RandStream)
        (res : SimA.Result),
      0 < (if em then 600 else n) →
      SimA.run SimA.defaultCfg n scen em s = some res →
      res.tps_theoretical = (341 : ℚ) * 128 / 6 ∧
      res.avg_tps_effective ≤ res.tps_theoretical) ∧
    (∀ (n : Nat) (scen : String) (s : RandStream), 0 < n →
      (SimB.run SimB.defaultCfg n scen s).theoretical_tps = (341 : ℚ) * 128 / 6 ∧
      (SimB.run SimB.defaultCfg n scen s).avg_effective_tps ≤
        (SimB.run SimB.defaultCfg n scen s).theoretical_tps) := by
  constructor
  · intro n scen em s res hn h
    obtain ⟨acc, s2, hl, he, -, havg, hth, -⟩ :=
      simA_run_inv SimA.defaultCfg n scen em s res h
    have hthval : res.tps_theoretical = (341 : ℚ) * 128 / 6 := by
      rw [hth]; norm_num [SimA.defaultCfg]
    refine ⟨hthval, ?_⟩
    have hall : ∀ x ∈ acc.tps_effective, x ≤ (341 : ℚ) * 128 / 6 := by
      refine slotLoop_eff_all (SimA.step SimA.defaultCfg scen em)
        SimA.defaultCfg.finality_delay_slots (fun x => x ≤ (341 : ℚ) * 128 / 6)
        (fun slot s' o s1 hs => simA_step_eff_le scen em slot s' o s1 hs)
        (if em then 600 else n) 0 s RunAcc.init acc s2
        (by intro x hx; simp [RunAcc.init] at hx) hl
    have hne : acc.tps_effective ≠ [] := by
      have hlen := (slotLoop_spec (SimA.step SimA.defaultCfg scen em)
        SimA.defaultCfg.finality_delay_slots (if em then 600 else n) 0 s
        RunAcc.init acc s2 rfl rfl
        (fun j hj => absurd hj (Nat.not_lt_zero j)) hl).1
      intro hc
      rw [hc] at hlen
      simp at hlen
      omega
    rw [havg, hthval]
    exact mean_le_of_forall_le _ _ hne hall
  · intro n scen s hn
    obtain ⟨ha, -, havg, hth, -⟩ := simB_run_acc SimB.defaultCfg n scen s
    have hthval : (SimB.run SimB.defaultCfg n scen s).theoretical_tps =
        (341 : ℚ) * 128 / 6 := by
      rw [hth]; norm_num [SimB.defaultCfg]
    refine ⟨hthval, ?_⟩
    set acc := (slotLoopT (SimB.step SimB.defaultCfg scen)
      SimB.defaultCfg.finality_delay_slots n 0 s RunAcc.init).1 with hacc
    have hall : ∀ x ∈ acc.tps_effective, x ≤ (341 : ℚ) * 128 / 6 := by
      refine slotLoop_eff_all (fun sl st => some (SimB.step SimB.defaultCfg scen sl st))
        SimB.defaultCfg.finality_delay_slots (fun x => x ≤ (341 : ℚ) * 128 / 6)
        ?_ n 0 s RunAcc.init acc
        (slotLoopT (SimB.step SimB.defaultCfg scen)
          SimB.defaultCfg.finality_delay_slots n 0 s RunAcc.init).2
        (by intro x hx; simp [RunAcc.init] at hx) (by rw [slotLoopT_eq])
      intro slot s' o s1 hs
      have ho : SimB.step SimB.defaultCfg scen slot s' = (o, s1) :=
        Option.some.inj hs
      have ho1 : o = (SimB.step SimB.defaultCfg scen slot s').1 := by
        rw [ho]
      rw [ho1]
      exact simB_step_eff_le scen slot s'
    have hne : acc.tps_effective ≠ [] := by
      have hlen := (simB_series_spec SimB.defaultCfg n scen s).1
      rw [ha] at hlen
      intro hc
      rw [hc] at hlen
      simp at hlen
      omega
    rw [havg, hthval]
    exact mean_le_of_forall_le _ _ hne hall

/-- Witness for C6: one-slot runs of both variants at the default
configurations on the zero stream. -/
theorem claim_C6_witness :
    ((SimA.run SimA.defaultCfg 1 "state-heavy" false zStream).map
        (fun r => r.tps_theoretical) = some ((341 : ℚ) * 128 / 6) ∧
      (SimA.run SimA.defaultCfg 1 "state-heavy" false zStream).map
        (fun r => decide (r.avg_tps_effective ≤ r.tps_theoretical)) = some true) ∧
    ((SimB.run SimB.defaultCfg 1 "state-heavy" zStream).theoretical_tps =
        (341 : ℚ) * 128 / 6 ∧
      (SimB.run SimB.defaultCfg 1 "state-heavy" zStream).avg_effective_tps ≤
        (SimB.run SimB.defaultCfg 1 "state-heavy" zStream).theoretical_tps) := by
  constructor
  · obtain ⟨res, hres⟩ := Option.isSome_iff_exists.mp
      (simA_run_isSome SimA.defaultCfg 1 "state-heavy" false zStream
        (Or.inr (Or.inl rfl)))
    obtain ⟨hth, havg⟩ := claim_C6_theoretical_bound.1 1 "state-heavy" false
      zStream res (by norm_num) hres
    constructor
    · rw [hres, Option.map_some', hth]
    · rw [hres, Option.map_some', decide_eq_true havg]
  · exact claim_C6_theoretical_bound.2 1 "state-heavy" zStream (by norm_num)

/-- Claim C1 as stated is false: variant B's `run_simulation` does not fail
on the unrecognized tag `"bogus"` — it produces a per-slot result series
(here of length 1). -/
theorem claim_C1_counterexample :
    (SimB.run SimB.defaultCfg 1 "bogus" zStream).effective_series ≠ [] := by
  have h := (simB_series_spec SimB.defaultCfg 1 "bogus" zStream).1
  intro hc
  rw [hc] at h
  simp at h

/-- Claim C1, amended: in variant A an unrecognized scenario tag makes the
run fail before any per-slot result is produced (whenever at least one slot
would be simulated), with no partially-populated result observable; in
variant B an unrecognized tag is silently treated as the mixed scenario —
the run succeeds and equals the mixed-scenario run except for the scenario
string echoed in the result. -/
theorem claim_C1_unknown_scenario :
    (∀ (cfg : SimA.Config) (n : Nat) (scen : String) (em : Bool)
        (s : RandStream),
      scen ≠ "stateless" → scen ≠ "state-heavy" → scen ≠ "mixed" →
      0 < (if em then 600 else n) →
      SimA.run cfg n scen em s = none) ∧
    (∀ (cfg : SimB.Config) (n : Nat) (scen : String) (s : RandStream),
      scen ≠ "stateless" → scen ≠ "state-heavy" →
      SimB.run cfg n scen s =
        { SimB.run cfg n "mixed" s with scenario := scen }) := by
  constructor
  · intro cfg n scen em s h1 h2 h3 h4
    simp only [SimA.run]
    rcases Nat.exists_eq_succ_of_ne_zero
      (by omega : (if em then 600 else n) ≠ 0) with ⟨m, hm⟩
    rw [hm]
    simp only [slotLoop, simA_step_none cfg scen em 0 s h1 h2 h3]
  · intro cfg n scen s h1 h2
    have hw : SimB.workloads_for_slot scen = SimB.workloads_for_slot "mixed" := by
      funext st
      simp [SimB.workloads_for_slot, h1, h2]
    have hstep : SimB.step cfg scen = SimB.step cfg "mixed" := by
      funext slot st
      simp only [SimB.step, hw]
    simp only [SimB.run, hstep]

/-- Witness for the amended C1: the tag `"bogus"` aborts variant A with no
result, and is treated as `"mixed"` by variant B. -/
theorem claim_C1_witness :
    SimA.run SimA.defaultCfg 1 "bogus" false zStream = none ∧
    SimB.run SimB.defaultCfg 1 "bogus" zStream =
      { SimB.run SimB.defaultCfg 1 "mixed" zStream with scenario := "bogus" } :=
  ⟨claim_C1_unknown_scenario.1 SimA.defaultCfg 1 "bogus" false zStream
     (by decide) (by decide) (by decide) (by norm_num),
   claim_C1_unknown_scenario.2 SimB.defaultCfg 1 "bogus" zStream
     (by decide) (by decide)⟩

/-- Claim C8 as stated is false: variant A's `run_simulation` writes the
file `simulation_results.csv` as part of every successful run — here a
concrete one-slot stateless run at the default configuration. -/
theorem claim_C8_counterexample :
    (SimA.run SimA.defaultCfg 1 "stateless" false zStream).map
      (fun r => r.files_written) = some ["simulation_results.csv"] := by
  obtain ⟨res, hres⟩ := Option.isSome_iff_exists.mp
    (simA_run_isSome SimA.defaultCfg 1 "stateless" false zStream (Or.inl rfl))
  obtain ⟨acc, s2, -, -, -, -, -, hf⟩ :=
    simA_run_inv SimA.defaultCfg 1 "stateless" false zStream res hres
  rw [hres, Option.map_some', hf]

/-- Claim C8, amended: variant B's run is a pure function of its
configuration, scenario, slot count and random stream with an empty file,
display and environment effect footprint; variant A's run is the same except
that it writes the CSV file `simulation_results.csv` before returning. -/
theorem claim_C8_purity :
    (∀ (cfg : SimB.Config) (n : Nat) (scen : String) (s : RandStream),
      (SimB.run cfg n scen s).files_written = []) ∧
    (∀ (cfg : SimA.Config) (n : Nat) (scen : String) (em : Bool)
        (s : RandStream) (res : SimA.Result),
      SimA.run cfg n scen em s = some res →
      res.files_written = ["simulation_results.csv"]) := by
  constructor
  · intro cfg n scen s
    rfl
  · intro cfg n scen em s res h
    obtain ⟨acc, s2, -, -, -, -, -, hf⟩ := simA_run_inv cfg n scen em s res h
    exact hf

/-- Witness for the amended C8: concrete one-slot runs of both variants. -/
theorem claim_C8_witness :
    (SimB.run SimB.defaultCfg 1 "stateless" zStream).files_written = [] ∧
    (SimA.run SimA.defaultCfg 1 "mixed" false zStream).map
      (fun r => r.files_written) = some ["simulation_results.csv"] := by
  refine ⟨claim_C8_purity.1 SimB.defaultCfg 1 "stateless" zStream, ?_⟩
  obtain ⟨res, hres⟩ := Option.isSome_iff_exists.mp
    (simA_run_isSome SimA.defaultCfg 1 "mixed" false zStream (Or.inr (Or.inr rfl)))
  rw [hres, Option.map_some',
    claim_C8_purity.2 SimA.defaultCfg 1 "mixed" false zStream res hres]
